import Mathlib

/-!
Verification of the native query-acceleration core of mcp-stata
(src_rust/lib.rs): null-aware comparators, multi-key argsort, the
expression filter, and the log-scanner return-code extraction.

Shallow-embedding conventions, used consistently below:

* A Rust `f64` is modelled as `Option ℚ`, with `none` standing for the NaN
  null sentinel.  The code only ever asks `is_nan`, `<`, `>` and `== 0.0`
  of its floats, and on non-NaN values those are the order and equality of
  an ordered field, which ℚ models faithfully.
* A text cell is `Option (List Nat)`: an optional byte string.  Rust's
  `str::cmp` is byte-lexicographic comparison of the UTF-8 bytes.
* `str::parse::<f64>` is an external library routine; it enters the model
  as an explicit `parseNum` parameter of the filter.
* The fasteval expression engine is an external crate: the compiled
  expression type and its parse/eval functions enter the model as
  parameters (`Expr`, `parse`, `evalC`); `compute_filter_indices` only
  inspects the shape of their results, exactly as the Rust code does.
* `slice::sort_unstable_by` and rayon's `par_sort_unstable_by` are
  comparison sorts over the index vector; the model represents a
  comparison sort by insertion sort over `List.range n`.  Rayon's
  order-preserving parallel `filter_map`/`collect` pipeline is modelled by
  an explicit consecutive partition (`chunks`) of the row range.
* Out-of-range indexing panics in Rust.  Every indexed access below is
  guarded by the equal-row-count invariant that the callers establish, so
  the `getD`/`get?` defaults used to keep the Lean functions total are
  never exercised by the theorems.
-/

namespace NativeOps

/-- Numeric cell: a 64-bit float where the NaN bit pattern is the null
sentinel (`none`). -/
abbrev F64 := Option ℚ

/-- Parallel-dispatch threshold for the sort engine (lib.rs line 15). -/
def PAR_SORT_THRESHOLD : Nat := 2500

/-- Parallel-dispatch threshold for the filter (lib.rs line 16). -/
def PAR_FILTER_THRESHOLD : Nat := 5000

/-- Maximum filter expression length in bytes (lib.rs line 17);
Rust's `String::len` counts UTF-8 bytes. -/
def MAX_FILTER_EXPR_LEN : Nat := 1000

/-- Null-aware numeric comparator, translated from `cmp_with_nulls`
(lib.rs lines 19-53).  `none` plays the role of NaN. -/
def cmp_with_nulls (a b : F64) (descending nulls_last : Bool) : Ordering :=
  match a, b with
  | none, none => .eq
  | none, some _ => if nulls_last then .gt else .lt
  | some _, none => if nulls_last then .lt else .gt
  | some x, some y =>
    if x < y then (if descending then .gt else .lt)
    else if y < x then (if descending then .lt else .gt)
    else .eq

/-- Byte-wise lexicographic comparison of byte strings, the behaviour of
Rust's `str::cmp` on the UTF-8 bytes. -/
def cmpBytes : List Nat → List Nat → Ordering
  | [], [] => .eq
  | [], _ :: _ => .lt
  | _ :: _, [] => .gt
  | a :: s, b :: t =>
    if a < b then .lt else if b < a then .gt else cmpBytes s t

/-- Null-aware text comparator, translated from the `ColumnData::Text`
arm of the comparator in `argsort_mixed_core` (lib.rs lines 111-135). -/
def cmpTextCells (a b : Option (List Nat)) (descending nulls_last : Bool) :
    Ordering :=
  match a, b with
  | none, none => .eq
  | none, some _ => if nulls_last then .gt else .lt
  | some _, none => if nulls_last then .lt else .gt
  | some s, some t =>
    let c := cmpBytes s t
    if descending then c.swap else c

/-- A column is a tagged variant: numeric or text (lib.rs lines 158-161). -/
inductive ColumnData where
  | numeric (values : List F64)
  | text (values : List (Option (List Nat)))

/-- Row count reported by one column. -/
def colLen : ColumnData → Nat
  | .numeric vs => vs.length
  | .text vs => vs.length

/-- Lexicographic chain of per-column comparators: iterate the columns in
the given order and return the first non-Equal result, else Equal
(the loop bodies of the sort closures, lib.rs lines 66-76 and 103-142). -/
def chainCmp : List (Nat → Nat → Ordering) → Nat → Nat → Ordering
  | [], _, _ => .eq
  | c :: cs, i, j => if c i j = .eq then chainCmp cs i j else c i j

/-- Per-column comparator of the numeric sort closure: compares the cells
of rows `i` and `j` of column number `k` with that column's flags. -/
def numColCmps (arrays : List (List F64)) (descending nulls_last : List Bool) :
    List (Nat → Nat → Ordering) :=
  arrays.enum.map fun p => fun i j =>
    cmp_with_nulls (p.2.getD i none) (p.2.getD j none)
      (descending.getD p.1 false) (nulls_last.getD p.1 false)

/-- Per-column comparator of the mixed sort closure: dispatches on the
column tag (lib.rs lines 107-136). -/
def colCmp : ColumnData → Bool → Bool → Nat → Nat → Ordering
  | .numeric vs, desc, nl, i, j =>
    cmp_with_nulls (vs.getD i none) (vs.getD j none) desc nl
  | .text vs, desc, nl, i, j =>
    cmpTextCells (vs.getD i none) (vs.getD j none) desc nl

/-- Comparator chain of `argsort_mixed_core`. -/
def mixedColCmps (cols : List ColumnData) (descending nulls_last : List Bool) :
    List (Nat → Nat → Ordering) :=
  cols.enum.map fun p =>
    colCmp p.2 (descending.getD p.1 false) (nulls_last.getD p.1 false)

/-- Reorder the index vector `0..n` by a three-way comparator.  Both
`sort_unstable_by` and rayon's `par_sort_unstable_by` are comparison
sorts; the model represents one by insertion sort with the reflexive
relation induced by the comparator. -/
def sortIndices (cmp : Nat → Nat → Ordering) (n : Nat) : List Nat :=
  List.insertionSort (fun i j => cmp i j ≠ Ordering.gt) (List.range n)

/-- Row count used by `argsort_numeric_core`: the first column's length. -/
def numRows (arrays : List (List F64)) : Nat := (arrays.headD []).length

/-- Multi-key numeric argsort core, translated from `argsort_numeric_core`
(lib.rs lines 55-85).  The sequential/parallel dispatch at the threshold
is collapsed: both library sorts are represented by `sortIndices`. -/
def argsort_numeric_core (arrays : List (List F64))
    (descending nulls_last : List Bool) : List Nat :=
  if arrays.isEmpty then []
  else sortIndices (chainCmp (numColCmps arrays descending nulls_last))
    (numRows arrays)

/-- Row count used by `argsort_mixed_core`: the first column's length. -/
def mixedRows (cols : List ColumnData) : Nat :=
  colLen (cols.headD (.numeric []))

/-- Mixed-type argsort core, translated from `argsort_mixed_core`
(lib.rs lines 87-151). -/
def argsort_mixed_core (parsed : List ColumnData)
    (descending nulls_last : List Bool) : List Nat :=
  if parsed.isEmpty then []
  else sortIndices (chainCmp (mixedColCmps parsed descending nulls_last))
    (mixedRows parsed)

/-- Errors of the sort entry points.  `nonContiguous` models the
`as_slice` marshalling failure, which host marshalling never triggers in
this embedding. -/
inductive SortErr where
  | lengthMismatch
  | nonContiguous
deriving DecidableEq

/-- Row-count verification loop of `argsort_mixed` (lib.rs lines 230-261):
the first column fixes the count, any differing later column is a length
mismatch. -/
def rowCountCheck : List ColumnData → Option Nat
  | [] => some 0
  | c :: rest =>
    if rest.all (fun d => colLen d = colLen c) then some (colLen c) else none

/-- Entry point `argsort_numeric` (lib.rs lines 163-196): empty-column
short circuit, flag-arity validation, per-column row-count validation,
then the core. -/
def argsort_numeric (columns : List (List F64))
    (descending nulls_last : List Bool) : Except SortErr (List Nat) :=
  if columns.isEmpty then .ok []
  else if descending.length ≠ columns.length ∨
      nulls_last.length ≠ columns.length then .error .lengthMismatch
  else if columns.any (fun c => c.length ≠ numRows columns) then
    .error .lengthMismatch
  else .ok (argsort_numeric_core columns descending nulls_last)

/-- Entry point `argsort_mixed` (lib.rs lines 198-269): empty-column short
circuit, arity validation of the three flag arrays, extraction (modelled
as the identity), row-count verification, zero-row short circuit, core. -/
def argsort_mixed (columns : List ColumnData)
    (is_string descending nulls_last : List Bool) : Except SortErr (List Nat) :=
  if columns.isEmpty then .ok []
  else if is_string.length ≠ columns.length ∨
      descending.length ≠ columns.length ∨
      nulls_last.length ≠ columns.length then .error .lengthMismatch
  else
    match rowCountCheck columns with
    | none => .error .lengthMismatch
    | some rows =>
      if rows = 0 then .ok []
      else .ok (argsort_mixed_core columns descending nulls_last)

/-! ### Filter -/

/-- Errors of `compute_filter_indices` (all surfaced as PyValueError in
Rust, distinguished here by their message). -/
inductive FilterErr where
  | exprTooLong
  | parseError
  | lengthMismatch
  | nonContiguous
deriving DecidableEq

/-- Name-to-index map built from the enumerated name list (lib.rs lines
420-424).  A HashMap built by insertion lets a later duplicate overwrite
an earlier one, so the recursion gives the tail priority. -/
def lookupLastFrom : Nat → List String → String → Option Nat
  | _, [], _ => none
  | k, n :: rest, s =>
    match lookupLastFrom (k + 1) rest s with
    | some r => some r
    | none => if n = s then some k else none

/-- The variable-resolution table of one filter call. -/
def buildNameMap (names : List String) (s : String) : Option Nat :=
  lookupLastFrom 0 names s

/-- Variable lookup callback of the filter (lib.rs lines 470-485 and
497-512): unbound name, NaN numeric cell, absent text cell, or
unparsable text cell all resolve to unknown (`none`). -/
def lookupCb (parseNum : List Nat → Option F64) (names : List String)
    (columns : List ColumnData) (i : Nat) (name : String) : Option F64 :=
  match buildNameMap names name with
  | none => none
  | some idx =>
    match columns.get? idx with
    | some (.numeric vs) =>
      match vs.get? i with
      | some none => none
      | some (some q) => some (some q)
      | none => none
    | some (.text vs) =>
      match vs.get? i with
      | some (some s) => parseNum s
      | _ => none
    | none => none

/-- Row acceptance test (lib.rs lines 487-490 and 514-517): the row passes
iff evaluation succeeds and the result is neither zero nor NaN. -/
def rowPass {Expr : Type} (evalC : Expr → (String → Option F64) → Option F64)
    (e : Expr) (cb : String → Option F64) : Bool :=
  match evalC e cb with
  | some (some q) => decide (q ≠ 0)
  | _ => false

/-- Chunked filter over consecutive subranges of the row range, the model
of rayon's partitioned `into_par_iter().filter_map().collect()`, whose
collect concatenates the per-partition matches in index order. -/
def parFilter (pass : Nat → Bool) : List Nat → Nat → List Nat
  | [], _ => []
  | c :: cs, start =>
    ((List.range c).map (start + ·)).filter pass ++ parFilter pass cs (start + c)

/-- Row count of the filter call: taken from the first column only
(lib.rs lines 439-446); later columns are not cross-checked. -/
def filterRowCount (columns : List ColumnData) : Nat :=
  match columns with
  | [] => 0
  | c :: _ => colLen c

/-- Entry point `compute_filter_indices` (lib.rs lines 391-523): byte
length gate, compile, arity validation, row count from the first column,
zero-row short circuit, then the sequential or chunked-parallel filter.
`parse`, `evalC` stand for the external fasteval compiler and evaluator,
`parseNum` for `str::parse::<f64>`, `chunks` for rayon's partition. -/
def compute_filter_indices {Expr : Type}
    (parse : String → Except String Expr)
    (evalC : Expr → (String → Option F64) → Option F64)
    (parseNum : List Nat → Option F64)
    (chunks : List Nat)
    (expr_str : String) (names : List String)
    (columns : List ColumnData) (is_string : List Bool) :
    Except FilterErr (List Nat) :=
  if MAX_FILTER_EXPR_LEN < expr_str.utf8ByteSize then .error .exprTooLong
  else
    match parse expr_str with
    | .error _ => .error .parseError
    | .ok e =>
      if names.length ≠ columns.length ∨ names.length ≠ is_string.length then
        .error .lengthMismatch
      else
        if filterRowCount columns = 0 then .ok []
        else
          let pass := fun i => rowPass evalC e (lookupCb parseNum names columns i)
          if PAR_FILTER_THRESHOLD ≤ filterRowCount columns then
            .ok (parFilter pass chunks 0)
          else .ok ((List.range (filterRowCount columns)).filter pass)

/-! ### Log scanner return-code extraction -/

/-- Word character of the regex word boundary, ASCII fragment. -/
def isWordChar (c : Char) : Bool := c.isAlphanum || c = '_'

/-- The literal head of the primary return-code pattern. -/
def litSearch : List Char := ['{', 's', 'e', 'a', 'r', 'c', 'h', ' ', 'r', '(']

/-- Match of the primary pattern at the head of the text: the literal,
then one or more digits (the capture), then a closing parenthesis. -/
def primAt (l : List Char) : Option (List Char) :=
  if litSearch.isPrefixOf l then
    let rest := l.drop litSearch.length
    let ds := rest.takeWhile Char.isDigit
    if ds.isEmpty then none
    else if (rest.drop ds.length).head? = some ')' then some ds else none
  else none

/-- All captures of the primary pattern, in text order.  No occurrence of
the pattern can begin strictly inside another (the matched span holds a
single opening brace), so scanning one character at a time agrees with
the non-overlapping scan of `captures_iter`. -/
def primaryCaps : List Char → List (List Char)
  | [] => []
  | c :: rest =>
    (match primAt (c :: rest) with
     | some ds => [ds]
     | none => []) ++ primaryCaps rest

/-- Match of the secondary bare pattern at the head of the text:
the letter r, an opening parenthesis, digits (the capture), a closing
parenthesis; the trailing optional semicolon does not affect the
capture. -/
def secAt (l : List Char) : Option (List Char) :=
  match l with
  | 'r' :: '(' :: rest =>
    let ds := rest.takeWhile Char.isDigit
    if ds.isEmpty then none
    else if (rest.drop ds.length).head? = some ')' then some ds else none
  | _ => none

/-- All captures of the secondary pattern, in text order, honouring the
word boundary before the r: the previous character must not be a word
character.  The span of a match holds no second r, so character-by-
character scanning agrees with the non-overlapping regex scan. -/
def secCapsAux : Bool → List Char → List (List Char)
  | _, [] => []
  | prevWord, c :: rest =>
    (if prevWord then []
     else
       match secAt (c :: rest) with
       | some ds => [ds]
       | none => []) ++ secCapsAux (isWordChar c) rest

/-- Digit run to its decimal value. -/
def digsToNat (ds : List Char) : Nat :=
  ds.foldl (fun n c => 10 * n + (c.toNat - 48)) 0

/-- Rust's `str::parse::<i32>` on a pure digit run: fails exactly when the
value exceeds the i32 maximum. -/
def parseI32 (ds : List Char) : Option Int :=
  if ds.isEmpty then none
  else if digsToNat ds ≤ 2147483647 then some (digsToNat ds) else none

/-- Return-code extraction of `fast_scan_log` (lib.rs lines 343-351): the
last primary capture is parsed first; only if that leaves no code (no
primary match, or its digits overflow i32) is the last secondary capture
parsed. -/
def scanRc (s : List Char) : Option Int :=
  match ((primaryCaps s).getLast?).bind parseI32 with
  | some v => some v
  | none => ((secCapsAux false s).getLast?).bind parseI32

/-! ### Helper lemmas -/

theorem utf8Len_replicate (n : Nat) (c : Char) :
    String.utf8Len (List.replicate n c) = n * c.utf8Size := by
  induction n with
  | zero => simp
  | succ n ih => simp [List.replicate_succ, ih, Nat.succ_mul, Nat.add_comm]

theorem cmpBytes_eq_iff : ∀ s t : List Nat, cmpBytes s t = .eq ↔ s = t
  | [], [] => by simp [cmpBytes]
  | [], _ :: _ => by simp [cmpBytes]
  | _ :: _, [] => by simp [cmpBytes]
  | a :: s, b :: t => by
    simp only [cmpBytes]
    rcases Nat.lt_trichotomy a b with h | h | h
    · simp [h, Nat.ne_of_lt h]
    · subst h
      simp [Nat.lt_irrefl, cmpBytes_eq_iff s t]
    · simp [h, Nat.lt_asymm h, (Nat.ne_of_lt h).symm]

theorem cmpBytes_lt_iff : ∀ s t : List Nat, cmpBytes s t = .lt ↔ List.Lex (· < ·) s t
  | [], [] => iff_of_false (by decide) (List.Lex.not_nil_right _ _)
  | [], _ :: _ => ⟨fun _ => List.Lex.nil, fun _ => rfl⟩
  | _ :: _, [] =>
    iff_of_false (fun h => Ordering.noConfusion h) (List.Lex.not_nil_right _ _)
  | a :: s, b :: t => by
    show (if a < b then Ordering.lt
      else if b < a then Ordering.gt else cmpBytes s t) = .lt ↔ _
    rcases Nat.lt_trichotomy a b with h | h | h
    · rw [if_pos h]
      exact ⟨fun _ => List.Lex.rel h, fun _ => rfl⟩
    · subst h
      rw [if_neg (Nat.lt_irrefl a), if_neg (Nat.lt_irrefl a), cmpBytes_lt_iff s t]
      exact (List.Lex.cons_iff (r := (· < ·))).symm
    · rw [if_neg (Nat.lt_asymm h), if_pos h]
      refine ⟨fun hc => absurd hc (by decide), fun hlex => ?_⟩
      cases hlex with
      | cons h2 => exact absurd h (Nat.lt_irrefl a)
      | rel h2 => exact absurd h2 (Nat.lt_asymm h)

theorem cmpBytes_swap : ∀ s t : List Nat, cmpBytes t s = (cmpBytes s t).swap
  | [], [] => rfl
  | [], _ :: _ => rfl
  | _ :: _, [] => rfl
  | a :: s, b :: t => by
    simp only [cmpBytes]
    rcases Nat.lt_trichotomy a b with h | h | h
    · simp [h, Nat.lt_asymm h, Ordering.swap]
    · subst h
      simp [Nat.lt_irrefl, cmpBytes_swap s t]
    · simp [h, Nat.lt_asymm h, Ordering.swap]

theorem cmpBytes_gt_iff (s t : List Nat) :
    cmpBytes s t = .gt ↔ List.Lex (· < ·) t s := by
  rw [← cmpBytes_lt_iff t s, cmpBytes_swap t s]
  cases hc : cmpBytes t s <;> simp [hc, Ordering.swap]

theorem chainCmp_eq_iff : ∀ (cmps : List (Nat → Nat → Ordering)) (i j : Nat),
    chainCmp cmps i j = .eq ↔ ∀ c ∈ cmps, c i j = .eq
  | [], i, j => by simp [chainCmp]
  | c :: cs, i, j => by
    simp only [chainCmp, List.forall_mem_cons]
    by_cases h : c i j = .eq
    · simp [h, chainCmp_eq_iff cs i j]
    · simp [h]

theorem chainCmp_first_ne :
    ∀ (cmps : List (Nat → Nat → Ordering)) (i j : Nat),
    chainCmp cmps i j ≠ .eq →
    ∃ pre c post, cmps = pre ++ c :: post ∧ (∀ d ∈ pre, d i j = .eq) ∧
      c i j = chainCmp cmps i j
  | [], i, j => by simp [chainCmp]
  | c :: cs, i, j => by
    intro hne
    by_cases h : c i j = .eq
    · have hstep : chainCmp (c :: cs) i j = chainCmp cs i j := by
        simp [chainCmp, h]
      rw [hstep] at hne ⊢
      obtain ⟨pre, d, post, heq, hpre, hd⟩ := chainCmp_first_ne cs i j hne
      exact ⟨c :: pre, d, post, by simp [heq],
        by simp only [List.forall_mem_cons]; exact ⟨h, hpre⟩, hd⟩
    · exact ⟨[], c, cs, rfl, by simp, by simp [chainCmp, h]⟩

theorem sortIndices_perm (cmp : Nat → Nat → Ordering) (n : Nat) :
    (sortIndices cmp n).Perm (List.range n) :=
  List.perm_insertionSort _ _

theorem parFilter_eq (pass : Nat → Bool) :
    ∀ (cs : List Nat) (s : Nat),
    parFilter pass cs s = ((List.range cs.sum).map (s + ·)).filter pass
  | [], s => by simp [parFilter]
  | c :: cs, s => by
    have hcomp : ((s + ·) ∘ (c + ·)) = ((s + c) + ·) :=
      funext fun x => (Nat.add_assoc s c x).symm
    simp only [parFilter, List.sum_cons, List.range_add, List.map_append,
      List.filter_append, List.map_map, hcomp]
    rw [parFilter_eq pass cs (s + c)]

theorem parFilter_zero (pass : Nat → Bool) (cs : List Nat) :
    parFilter pass cs 0 = (List.range cs.sum).filter pass := by
  rw [parFilter_eq]
  congr 1
  simp

theorem rowPass_iff {Expr : Type}
    (evalC : Expr → (String → Option F64) → Option F64) (e : Expr)
    (cb : String → Option F64) :
    rowPass evalC e cb = true ↔ ∃ q : ℚ, evalC e cb = some (some q) ∧ q ≠ 0 := by
  unfold rowPass
  rcases h : evalC e cb with _ | v
  · simp [h]
  · rcases v with _ | q
    · simp [h]
    · simp [h]

theorem lookupLastFrom_lt :
    ∀ (k : Nat) (names : List String) (s : String) (r : Nat),
    lookupLastFrom k names s = some r → r < k + names.length
  | k, [], s, r => fun h => by simp [lookupLastFrom] at h
  | k, n :: rest, s, r => fun h => by
    rcases hrec : lookupLastFrom (k + 1) rest s with _ | r2
    · simp only [lookupLastFrom, hrec] at h
      by_cases hn : n = s
      · rw [if_pos hn] at h
        injection h with h
        subst h
        simp only [List.length_cons]
        omega
      · rw [if_neg hn] at h
        exact absurd h (by simp)
    · simp only [lookupLastFrom, hrec] at h
      injection h with h
      subst h
      have := lookupLastFrom_lt (k + 1) rest s r2 hrec
      simp only [List.length_cons]
      omega

theorem buildNameMap_lt {names : List String} {s : String} {r : Nat}
    (h : buildNameMap names s = some r) : r < names.length := by
  have := lookupLastFrom_lt 0 names s r h
  omega

theorem lookupCb_none_iff (parseNum : List Nat → Option F64)
    (names : List String) (columns : List ColumnData) (i : Nat)
    (hlen : names.length = columns.length)
    (hcols : ∀ c ∈ columns, colLen c = filterRowCount columns)
    (hi : i < filterRowCount columns) (name : String) :
    lookupCb parseNum names columns i name = none ↔
      (buildNameMap names name = none ∨
       (∃ idx vs, buildNameMap names name = some idx ∧
          columns.get? idx = some (.numeric vs) ∧ vs.get? i = some none) ∨
       (∃ idx vs, buildNameMap names name = some idx ∧
          columns.get? idx = some (.text vs) ∧
          (vs.get? i = some none ∨
           ∃ s, vs.get? i = some (some s) ∧ parseNum s = none))) := by
  unfold lookupCb
  rcases hmap : buildNameMap names name with _ | idx
  · simp [hmap]
  · have hidx : idx < columns.length := hlen ▸ buildNameMap_lt hmap
    rcases hcol : columns.get? idx with _ | col
    · exact absurd (List.get?_eq_none.mp hcol) (by omega)
    · have hmem : col ∈ columns := List.get?_mem hcol
      have hcl : colLen col = filterRowCount columns := hcols col hmem
      cases col with
      | numeric vs =>
        have hvi : i < vs.length := by
          simp only [colLen] at hcl
          omega
        rcases hv : vs.get? i with _ | v
        · exact absurd (List.get?_eq_none.mp hv) (by omega)
        · rw [List.get?_eq_getElem?] at hcol hv
          cases v with
          | none => simp [hmap, hcol, hv]
          | some q => simp [hmap, hcol, hv]
      | text vs =>
        have hvi : i < vs.length := by
          simp only [colLen] at hcl
          omega
        rcases hv : vs.get? i with _ | v
        · exact absurd (List.get?_eq_none.mp hv) (by omega)
        · rw [List.get?_eq_getElem?] at hcol hv
          cases v with
          | none => simp [hmap, hcol, hv]
          | some sbytes => simp [hmap, hcol, hv]

theorem argsort_numeric_core_perm (arrays : List (List F64))
    (descending nulls_last : List Bool) :
    (argsort_numeric_core arrays descending nulls_last).Perm
      (List.range (numRows arrays)) := by
  unfold argsort_numeric_core
  split
  · rename_i h
    rw [List.isEmpty_iff] at h
    subst h
    simp [numRows]
  · exact sortIndices_perm _ _

theorem argsort_mixed_core_perm (cols : List ColumnData)
    (descending nulls_last : List Bool) :
    (argsort_mixed_core cols descending nulls_last).Perm
      (List.range (mixedRows cols)) := by
  unfold argsort_mixed_core
  split
  · rename_i h
    rw [List.isEmpty_iff] at h
    subst h
    simp [mixedRows, colLen]
  · exact sortIndices_perm _ _

/-! ### Claim theorems -/

/-- C2: the null-aware comparator returns Equal when both operands are
NaN; when exactly one is NaN, the NaN operand compares Greater (sorts
after) iff nulls_last and Less otherwise, independent of descending; on
two non-NaN values it returns the ordinary magnitude comparison, inverted
iff descending.  The same placement rule holds for text cells with absent
values, and two present text cells compare byte-lexicographically,
inverted iff descending. -/
theorem C2_null_aware_comparator (q r : ℚ) (t u : List Nat)
    (descending nulls_last : Bool) :
    (cmp_with_nulls none none descending nulls_last = .eq) ∧
    (cmp_with_nulls none (some r) descending nulls_last =
      if nulls_last then .gt else .lt) ∧
    (cmp_with_nulls (some q) none descending nulls_last =
      if nulls_last then .lt else .gt) ∧
    (q < r → cmp_with_nulls (some q) (some r) descending nulls_last =
      if descending then .gt else .lt) ∧
    (r < q → cmp_with_nulls (some q) (some r) descending nulls_last =
      if descending then .lt else .gt) ∧
    (q = r → cmp_with_nulls (some q) (some r) descending nulls_last = .eq) ∧
    (cmpTextCells none none descending nulls_last = .eq) ∧
    (cmpTextCells none (some u) descending nulls_last =
      if nulls_last then .gt else .lt) ∧
    (cmpTextCells (some t) none descending nulls_last =
      if nulls_last then .lt else .gt) ∧
    (List.Lex (· < ·) t u →
      cmpTextCells (some t) (some u) descending nulls_last =
        if descending then .gt else .lt) ∧
    (List.Lex (· < ·) u t →
      cmpTextCells (some t) (some u) descending nulls_last =
        if descending then .lt else .gt) ∧
    (t = u → cmpTextCells (some t) (some u) descending nulls_last = .eq) := by
  refine ⟨rfl, rfl, rfl, ?_, ?_, ?_, rfl, rfl, rfl, ?_, ?_, ?_⟩
  · intro h
    simp only [cmp_with_nulls, if_pos h]
  · intro h
    simp only [cmp_with_nulls, if_neg (lt_asymm h), if_pos h]
  · intro h
    subst h
    simp only [cmp_with_nulls, if_neg (lt_irrefl q)]
  · intro h
    have hc : cmpBytes t u = .lt := (cmpBytes_lt_iff t u).mpr h
    simp only [cmpTextCells, hc]
    cases descending <;> rfl
  · intro h
    have hc : cmpBytes t u = .gt := (cmpBytes_gt_iff t u).mpr h
    simp only [cmpTextCells, hc]
    cases descending <;> rfl
  · intro h
    have hc : cmpBytes t u = .eq := (cmpBytes_eq_iff t u).mpr h
    simp only [cmpTextCells, hc]
    cases descending <;> rfl

/-- Witness for C2 at concrete inputs. -/
theorem C2_null_aware_comparator_witness :
    cmp_with_nulls (some 1) (some 2) false true = .lt ∧
    cmpTextCells (some [97]) (some [98]) false true = .lt := by
  have h := C2_null_aware_comparator 1 2 [97] [98] false true
  exact ⟨h.2.2.2.1 (by norm_num),
    h.2.2.2.2.2.2.2.2.2.1 (List.Lex.rel (by norm_num))⟩

/-- C3: both argsort cores return an index sequence of length equal to
the row count that contains each index of the row range exactly once. -/
theorem C3_argsort_is_permutation (arrays : List (List F64))
    (cols : List ColumnData) (d1 n1 d2 n2 : List Bool) :
    ((argsort_numeric_core arrays d1 n1).length = numRows arrays ∧
      ∀ i < numRows arrays, (argsort_numeric_core arrays d1 n1).count i = 1) ∧
    ((argsort_mixed_core cols d2 n2).length = mixedRows cols ∧
      ∀ i < mixedRows cols, (argsort_mixed_core cols d2 n2).count i = 1) := by
  have hn := argsort_numeric_core_perm arrays d1 n1
  have hm := argsort_mixed_core_perm cols d2 n2
  refine ⟨⟨?_, ?_⟩, ?_, ?_⟩
  · simpa using hn.length_eq
  · intro i hi
    rw [hn.count_eq]
    exact List.count_eq_one_of_mem (List.nodup_range _) (List.mem_range.mpr hi)
  · simpa using hm.length_eq
  · intro i hi
    rw [hm.count_eq]
    exact List.count_eq_one_of_mem (List.nodup_range _) (List.mem_range.mpr hi)

/-- Witness for C3 on concrete two-row inputs. -/
theorem C3_argsort_is_permutation_witness :
    ((argsort_numeric_core [[some 2, some 1]] [false] [true]).length = 2 ∧
      ∀ i < 2, (argsort_numeric_core [[some 2, some 1]] [false] [true]).count i = 1) ∧
    ((argsort_mixed_core [ColumnData.text [some [98], none]] [false] [true]).length = 2 ∧
      ∀ i < 2,
        (argsort_mixed_core [ColumnData.text [some [98], none]] [false] [true]).count i = 1) :=
  C3_argsort_is_permutation [[some 2, some 1]]
    [ColumnData.text [some [98], none]] [false] [true] [false] [true]

/-- C4: the argsort comparator iterates the sort keys in the given order,
returning the first non-Equal per-column result, with Equal only when all
keys tie; sorting numeric column [2,1,1,2] ascending tie-broken by
[4,3,1,2] descending nulls-last yields [1,2,0,3], and sorting [3,1,NaN,2]
ascending nulls-last yields [1,3,0,2]. -/
theorem C4_comparator_chain_and_examples :
    (∀ (cmps : List (Nat → Nat → Ordering)) (i j : Nat),
      (chainCmp cmps i j = .eq ↔ ∀ c ∈ cmps, c i j = .eq) ∧
      (chainCmp cmps i j ≠ .eq →
        ∃ pre c post, cmps = pre ++ c :: post ∧
          (∀ d ∈ pre, d i j = .eq) ∧ c i j = chainCmp cmps i j)) ∧
    argsort_numeric_core
      [[some 2, some 1, some 1, some 2], [some 4, some 3, some 1, some 2]]
      [false, true] [true, true] = [1, 2, 0, 3] ∧
    argsort_numeric_core [[some 3, some 1, none, some 2]] [false] [true] =
      [1, 3, 0, 2] :=
  ⟨fun cmps i j => ⟨chainCmp_eq_iff cmps i j, chainCmp_first_ne cmps i j⟩,
    by decide, by decide⟩

/-- C10: with an empty column list both sort entry points return the
empty permutation even when the flag arrays are nonempty: the
empty-columns check precedes the flag-arity validation, so no length
mismatch is raised. -/
theorem C10_empty_columns_short_circuit (is descending nulls_last : List Bool) :
    argsort_numeric [] descending nulls_last = .ok [] ∧
    argsort_mixed [] is descending nulls_last = .ok [] :=
  ⟨rfl, rfl⟩

set_option maxRecDepth 10000 in
/-- C7: a filter call whose columns report different row counts is not
rejected: the arity validation only compares the lengths of the names,
columns and is_string argument lists, the row count is taken from the
first column alone, and the call returns a result.  Here the two columns
report 2 and 1 rows and the call answers Ok [0, 1]. -/
theorem C7_filter_skips_rowcount_check :
    compute_filter_indices (fun _ : String => (Except.ok () : Except String Unit))
      (fun _ cb => cb "x") (fun _ => none) [] "x" ["x", "y"]
      [ColumnData.numeric [some 1, some 2], ColumnData.numeric [some 5]]
      [false, false] = Except.ok [0, 1] := rfl

set_option maxRecDepth 10000 in
/-- C8 counterexample: an expression of 501 characters, each two UTF-8
bytes, has at most 1000 characters yet is rejected as too long, because
the gate compares Rust's byte length (1002) against the bound. -/
theorem C8_byte_vs_char_counterexample :
    (String.mk (List.replicate 501 'α')).length = 501 ∧
    compute_filter_indices (fun _ : String => (Except.ok () : Except String Unit))
      (fun _ cb => cb "x") (fun _ => none) []
      (String.mk (List.replicate 501 'α')) [] [] [] =
      Except.error FilterErr.exprTooLong := by
  constructor
  · rfl
  · unfold compute_filter_indices
    rw [if_pos]
    rw [String.utf8ByteSize_mk, utf8Len_replicate]
    show 1000 < 501 * Char.utf8Size 'α'
    norm_num [Char.utf8Size]
    decide

/-- C8 (amended): the length gate counts UTF-8 bytes: an expression of
more than 1000 bytes fails with ExpressionTooLong for every parser, hence
before any parsing work; an expression of at most 1000 bytes never fails
for this reason. -/
theorem C8_expr_length_gate {Expr : Type}
    (parse : String → Except String Expr)
    (evalC : Expr → (String → Option F64) → Option F64)
    (parseNum : List Nat → Option F64) (chunks : List Nat)
    (expr_str : String) (names : List String) (columns : List ColumnData)
    (is_string : List Bool) :
    (MAX_FILTER_EXPR_LEN < expr_str.utf8ByteSize →
      compute_filter_indices parse evalC parseNum chunks expr_str names
        columns is_string = .error .exprTooLong) ∧
    (expr_str.utf8ByteSize ≤ MAX_FILTER_EXPR_LEN →
      compute_filter_indices parse evalC parseNum chunks expr_str names
        columns is_string ≠ .error .exprTooLong) := by
  constructor
  · intro h
    unfold compute_filter_indices
    rw [if_pos h]
  · intro h
    unfold compute_filter_indices
    rw [if_neg (by omega)]
    rcases hp : parse expr_str with err | e
    · simp [hp]
    · simp only [hp]
      split
      · simp
      · split
        · simp
        · split <;> simp

/-- Witness for C8 at the empty expression. -/
theorem C8_expr_length_gate_witness :
    compute_filter_indices (fun _ : String => (Except.ok () : Except String Unit))
      (fun _ cb => cb "x") (fun _ => none) [] "" [] [] [] ≠
      Except.error FilterErr.exprTooLong :=
  (C8_expr_length_gate (fun _ : String => (Except.ok () : Except String Unit))
    (fun _ cb => cb "x") (fun _ => none) [] "" [] [] []).2 (by decide)

/-- C9 counterexample: in a text holding both patterns, the primary
capture 9999999999 overflows i32, so the extracted code 5 comes from the
secondary bare pattern, refuting the claim that the primary pattern
always supplies the return code. -/
theorem C9_overflow_counterexample :
    primaryCaps "\x7bsearch r(9999999999) r(5);".toList ≠ [] ∧
    secCapsAux false "\x7bsearch r(9999999999) r(5);".toList ≠ [] ∧
    (primaryCaps "\x7bsearch r(9999999999) r(5);".toList).map digsToNat =
      [9999999999] ∧
    scanRc "\x7bsearch r(9999999999) r(5);".toList = some 5 :=
  ⟨by decide, by decide, by decide, by decide⟩

/-- C9 (amended): whenever the primary pattern is present and its last
capture parses as an i32 value, the extracted return code is that primary
value, independent of where either pattern occurs in the text; the
secondary pattern is consulted only when the primary yields no parseable
code. -/
theorem C9_primary_wins_when_parseable (s : List Char)
    (_ascii : ∀ c ∈ s, c.toNat < 128) (ds : List Char) (v : Int)
    (hprim : (primaryCaps s).getLast? = some ds)
    (_secPresent : secCapsAux false s ≠ [])
    (hparse : parseI32 ds = some v) :
    scanRc s = some v := by
  unfold scanRc
  rw [hprim]
  simp [hparse]

/-- Witness for C9 on a concrete log text. -/
theorem C9_primary_wins_witness :
    scanRc "\x7bsearch r(7)\x7d r(5);".toList = some 7 :=
  C9_primary_wins_when_parseable "\x7bsearch r(7)\x7d r(5);".toList (by decide)
    ['7'] 7 (by decide) (by decide) (by decide)

/-- C5: a row index is included in the filter result iff evaluating the
compiled expression at that row succeeds with a nonzero, non-NaN result
(row-level evaluation failures silently exclude the row while the call
still succeeds), and the variable lookup callback resolves a name to
unknown exactly when the name is not bound in the resolution table, the
numeric cell at that row is NaN, or the text cell is absent or fails to
parse as a number. -/
theorem C5_filter_row_semantics {Expr : Type}
    (parse : String → Except String Expr)
    (evalC : Expr → (String → Option F64) → Option F64)
    (parseNum : List Nat → Option F64) (chunks : List Nat)
    (expr_str : String) (names : List String) (columns : List ColumnData)
    (is_string : List Bool) (e : Expr) (l : List Nat) (i : Nat)
    (hparse : parse expr_str = .ok e)
    (hok : compute_filter_indices parse evalC parseNum chunks expr_str names
      columns is_string = .ok l)
    (hsum : chunks.sum = filterRowCount columns)
    (hcols : ∀ c ∈ columns, colLen c = filterRowCount columns)
    (hi : i < filterRowCount columns) :
    (i ∈ l ↔ ∃ q : ℚ,
      evalC e (lookupCb parseNum names columns i) = some (some q) ∧ q ≠ 0) ∧
    (∀ name : String,
      lookupCb parseNum names columns i name = none ↔
        (buildNameMap names name = none ∨
         (∃ idx vs, buildNameMap names name = some idx ∧
            columns.get? idx = some (.numeric vs) ∧ vs.get? i = some none) ∨
         (∃ idx vs, buildNameMap names name = some idx ∧
            columns.get? idx = some (.text vs) ∧
            (vs.get? i = some none ∨
             ∃ str, vs.get? i = some (some str) ∧ parseNum str = none)))) := by
  unfold compute_filter_indices at hok
  rw [hparse] at hok
  split at hok
  · exact absurd hok (by simp)
  · split at hok
    · rename_i herr
      exact absurd herr (by simp)
    · rename_i e2 he2
      injection he2 with he2
      subst he2
      split at hok
      · exact absurd hok (by simp)
      · rename_i harity
        have hlen : names.length = columns.length := by
          by_contra hne
          exact harity (Or.inl hne)
        refine ⟨?_, fun name =>
          lookupCb_none_iff parseNum names columns i hlen hcols hi name⟩
        split at hok
        · rename_i hrc
          exact absurd hi (by omega)
        · split at hok
          · injection hok with hok
            subst hok
            rw [parFilter_zero, hsum]
            simp only [List.mem_filter, List.mem_range, hi, true_and]
            exact rowPass_iff evalC e _
          · injection hok with hok
            subst hok
            simp only [List.mem_filter, List.mem_range, hi, true_and]
            exact rowPass_iff evalC e _

/-- Witness for C5: one numeric column holding 1 and NaN, expression a
bare variable reference; row 0 passes, row 1 fails silently. -/
theorem C5_filter_row_semantics_witness :
    (0 ∈ [0] ↔ ∃ q : ℚ,
      lookupCb (fun _ => none) ["x"] [ColumnData.numeric [some 1, none]] 0 "x" =
        some (some q) ∧ q ≠ 0) ∧
    (∀ name : String,
      lookupCb (fun _ => none) ["x"] [ColumnData.numeric [some 1, none]] 0 name =
          none ↔
        (buildNameMap ["x"] name = none ∨
         (∃ idx vs, buildNameMap ["x"] name = some idx ∧
            [ColumnData.numeric [some 1, none]].get? idx = some (.numeric vs) ∧
            vs.get? 0 = some none) ∨
         (∃ idx vs, buildNameMap ["x"] name = some idx ∧
            [ColumnData.numeric [some 1, none]].get? idx = some (.text vs) ∧
            (vs.get? 0 = some none ∨
             ∃ str, vs.get? 0 = some (some str) ∧
               (none : Option F64) = none)))) :=
  C5_filter_row_semantics (fun _ : String => (Except.ok () : Except String Unit))
    (fun _ cb => cb "x") (fun _ => none) [2] "x" ["x"]
    [ColumnData.numeric [some 1, none]] [false] () [0] 0 rfl rfl
    (by decide) (by decide) (by decide)

/-- C6: every successful filter call returns its matching row indices in
strictly ascending order, through both the sequential path and the
chunk-partitioned parallel path. -/
theorem C6_filter_indices_ascending {Expr : Type}
    (parse : String → Except String Expr)
    (evalC : Expr → (String → Option F64) → Option F64)
    (parseNum : List Nat → Option F64) (chunks : List Nat)
    (expr_str : String) (names : List String) (columns : List ColumnData)
    (is_string : List Bool) (l : List Nat)
    (hok : compute_filter_indices parse evalC parseNum chunks expr_str names
      columns is_string = .ok l) :
    l.Pairwise (· < ·) := by
  unfold compute_filter_indices at hok
  split at hok
  · exact absurd hok (by simp)
  · split at hok
    · exact absurd hok (by simp)
    · split at hok
      · exact absurd hok (by simp)
      · split at hok
        · injection hok with hok
          subst hok
          exact List.Pairwise.nil
        · split at hok
          · injection hok with hok
            subst hok
            rw [parFilter_zero]
            exact List.Pairwise.filter _ (List.pairwise_lt_range _)
          · injection hok with hok
            subst hok
            exact List.Pairwise.filter _ (List.pairwise_lt_range _)

/-- Witness for C6 on a one-row filter call. -/
theorem C6_filter_indices_ascending_witness :
    ([0] : List Nat).Pairwise (· < ·) :=
  C6_filter_indices_ascending (fun _ : String => (Except.ok () : Except String Unit))
    (fun _ cb => cb "y") (fun _ => none) [] "y" ["y"]
    [ColumnData.numeric [some 3]] [false] [0] rfl

end NativeOps
